import Mathlib

/-!
Verification of the stream-descriptor core (`lbrynet/stream/descriptor.py`).

The embedding models Python strings as lists of natural numbers (`PyStr`):
for `str` values these are the Unicode code points, for `bytes` values the
byte values.  All strings that actually flow through the descriptor core are
ASCII (hex digests, hex-encoded names, decimal numbers), where the two views
coincide and `str.encode` / `bytes.decode` are the identity.

The 384-bit hash primitive (`get_lbry_hash_obj`, defined outside this
repository) is modelled by an arbitrary function
`H : List Nat → List Nat` from the concatenation of all `update` calls to
the digest bytes; `hexdigest` is `toHexStr` of the digest.  Every theorem is
universally quantified over `H`.

Exceptions raised by the Python code are modelled with `Except PyErr`.
-/

set_option maxRecDepth 10000

/-- Python string / bytes: list of code points (resp. byte values). -/
abbrev PyStr := List Nat

/-- Code points of an ASCII string literal. -/
def pyStr (s : String) : PyStr := s.data.map Char.toNat

/-- Lowercase hex digit (of the low 4 bits), as in `binascii.hexlify`. -/
def hexDigit (n : Nat) : Nat :=
  if n % 16 < 10 then 48 + n % 16 else 87 + n % 16

/-- Model of `binascii.hexlify(b).decode()`: two lowercase hex characters per
byte. -/
def toHexStr (l : List Nat) : PyStr :=
  l.flatMap (fun b => [hexDigit (b / 16), hexDigit b])

/-- Value of one hex character, accepting both cases, as `binascii.unhexlify`
does. -/
def hexVal (c : Nat) : Option Nat :=
  if 48 ≤ c ∧ c ≤ 57 then some (c - 48)
  else if 97 ≤ c ∧ c ≤ 102 then some (c - 87)
  else if 65 ≤ c ∧ c ≤ 70 then some (c - 55)
  else none

/-- Reasons of the `InvalidStreamDescriptorError` raised by
`_from_stream_descriptor_blob`. -/
inductive InvalidReason where
  | missingTerminator
  | zeroLengthDataBlob
  | terminatorHasHash
  | streamHashMismatch
deriving DecidableEq, Repr

/-- The exact message string the source attaches to each
`InvalidStreamDescriptorError`. -/
def invalidReasonMessage : InvalidReason → PyStr
  | .missingTerminator => pyStr "Does not end with a zero-length blob."
  | .zeroLengthDataBlob => pyStr "Contains zero-length data blob"
  | .terminatorHasHash => pyStr "Stream terminator blob should not have a hash"
  | .streamHashMismatch => pyStr "Stream hash does not match stream metadata"

/-- Python exceptions that the modelled code can raise. -/
inductive PyErr where
  | keyError
  | indexError
  | typeError
  | binasciiError
  | invalidStreamDescriptor (reason : InvalidReason)
  | ioError (msg : PyStr)
deriving DecidableEq, Repr

/-- Model of `binascii.unhexlify` (with the result's `.decode()` being the
identity in the byte-list view); fails on odd length or non-hex characters. -/
def unhexlify : PyStr → Except PyErr (List Nat)
  | [] => .ok []
  | [_] => .error .binasciiError
  | a :: b :: rest =>
    match hexVal a, hexVal b with
    | some x, some y =>
      match unhexlify rest with
      | .ok r => .ok ((16 * x + y) :: r)
      | .error e => .error e
    | _, _ => .error .binasciiError

/-- Fuel-driven digit accumulation for decimal rendering. -/
def natDecimalGo : Nat → Nat → List Nat → List Nat
  | 0, _, acc => acc
  | fuel + 1, n, acc =>
    if n < 10 then (48 + n) :: acc
    else natDecimalGo fuel (n / 10) ((48 + n % 10) :: acc)

/-- Decimal ASCII rendering of a natural number. -/
def natDecimal (n : Nat) : List Nat := natDecimalGo (n + 1) n []

/-- Model of Python `str` on an `int` (decimal ASCII, sign included). -/
def intStr : Int → PyStr
  | .ofNat n => natDecimal n
  | .negSucc n => 45 :: natDecimal (n + 1)

/-- Interleave a separator between rendered pieces. -/
def joinSep (sep : List Nat) : List (List Nat) → List Nat
  | [] => []
  | [x] => x
  | x :: xs => x ++ sep ++ joinSep sep xs

/-- Model of the JSON values produced by `json.loads` on descriptor input:
strings, integers, arrays and string-keyed objects. -/
inductive JValue where
  | str (s : PyStr)
  | int (n : Int)
  | arr (l : List JValue)
  | obj (d : List (PyStr × JValue))

/-- First-match lookup in an object's key/value list (Python dicts hold each
key once, so this is dict lookup). -/
def jLookup (k : PyStr) : List (PyStr × JValue) → Option JValue
  | [] => none
  | (k', v) :: rest => if k = k' then some v else jLookup k rest

/-- Model of `d[k]` on a decoded JSON value: `KeyError` when the key is
absent, `TypeError` when `d` is not an object. -/
def jGet (v : JValue) (k : PyStr) : Except PyErr JValue :=
  match v with
  | .obj d =>
    match jLookup k d with
    | some w => .ok w
    | none => .error .keyError
  | _ => .error .typeError

/-- Look up a key and require an integer value. -/
def jGetInt (v : JValue) (k : PyStr) : Except PyErr Int :=
  match jGet v k with
  | .ok (.int n) => .ok n
  | .ok _ => .error .typeError
  | .error e => .error e

/-- Look up a key and require a string value. -/
def jGetStr (v : JValue) (k : PyStr) : Except PyErr PyStr :=
  match jGet v k with
  | .ok (.str s) => .ok s
  | .ok _ => .error .typeError
  | .error e => .error e

/-- Model of `d.get(k)` restricted to string values (the descriptor stores
the result in `BlobInfo.blob_hash`). -/
def jGetOptStr (v : JValue) (k : PyStr) : Except PyErr (Option PyStr) :=
  match v with
  | .obj d =>
    match jLookup k d with
    | some (.str s) => .ok (some s)
    | some _ => .error .typeError
    | none => .ok none
  | _ => .error .typeError

/-- Model of `k in d` for a decoded object. -/
def jHasKey (v : JValue) (k : PyStr) : Except PyErr Bool :=
  match v with
  | .obj d => .ok (jLookup k d).isSome
  | _ => .error .typeError

/-- Require a decoded value to be a JSON array (Python list). -/
def asArr (v : JValue) : Except PyErr (List JValue) :=
  match v with
  | .arr l => .ok l
  | _ => .error .typeError

/-- Model of `l[-1]`: `IndexError` on the empty list. -/
def lastElem (l : List JValue) : Except PyErr JValue :=
  match l.getLast? with
  | some v => .ok v
  | none => .error .indexError

/-- Effectful map over a list, stopping at the first raised exception (the
shape of Python's list comprehensions over fallible expressions). -/
def mapME (f : α → Except PyErr β) : List α → Except PyErr (List β)
  | [] => .ok []
  | a :: as =>
    match f a with
    | .error e => .error e
    | .ok b =>
      match mapME f as with
      | .error e => .error e
      | .ok bs => .ok (b :: bs)

/-- Record for one blob of a stream (`lbrynet.blob.blob_info.BlobInfo`; the
class itself lives outside this repository, its fields and uses are fixed by
`descriptor.py` and the spec's §3: `blob_num`, `length`, hex `iv`, and an
optional hex `blob_hash`). -/
structure BlobInfo where
  blob_num : Int
  length : Int
  iv : PyStr
  blob_hash : Option PyStr
deriving DecidableEq, Repr

/-- Modelled from the spec: `BlobInfo.as_dict` (the class is outside this
repository).  Spec §4.2: the serialization form is a string-keyed mapping
with keys `blob_num`, `length`, `iv`, and, when present, `blob_hash`. -/
def BlobInfo.as_dict (b : BlobInfo) : List (PyStr × JValue) :=
  [(pyStr "blob_num", .int b.blob_num),
   (pyStr "length", .int b.length),
   (pyStr "iv", .str b.iv)] ++
  (match b.blob_hash with
   | some h => [(pyStr "blob_hash", .str h)]
   | none => [])

/-- Escape of one character in a JSON string, as CPython's
`json.dumps` with the default `ensure_ascii=True` performs it: the two
JSON metacharacters and everything outside the printable ASCII range. -/
def escapeChar (c : Nat) : List Nat :=
  if c = 34 then [92, 34]
  else if c = 92 then [92, 92]
  else if c = 8 then [92, 98]
  else if c = 9 then [92, 116]
  else if c = 10 then [92, 110]
  else if c = 12 then [92, 102]
  else if c = 13 then [92, 114]
  else if c < 32 ∨ 126 < c then
    [92, 117, hexDigit (c / 4096), hexDigit (c / 256), hexDigit (c / 16), hexDigit c]
  else [c]

/-- Escape every character of a JSON string body. -/
def escapeStr (s : PyStr) : List Nat := s.flatMap escapeChar

/-- Rendering of a JSON string: quote, escaped body, quote. -/
def renderJStr (s : PyStr) : List Nat := 34 :: (escapeStr s ++ [34])

/-- Characters that `escapeChar` leaves unchanged; every character of the
hex-encoded fields of a descriptor is plain. -/
def PlainChar (c : Nat) : Prop := 32 ≤ c ∧ c ≤ 126 ∧ c ≠ 34 ∧ c ≠ 92

instance (c : Nat) : Decidable (PlainChar c) := by
  unfold PlainChar; infer_instance

/-- Python string comparison (code-point lexicographic with the prefix
rule), as `sort_keys=True` uses to order keys. -/
def strLeB : PyStr → PyStr → Bool
  | [], _ => true
  | _ :: _, [] => false
  | a :: as, b :: bs =>
    if a < b then true else if b < a then false else strLeB as bs

/-- Key order on object entries used by `json.dumps(..., sort_keys=True)`. -/
def entryLe (a b : PyStr × JValue) : Prop := strLeB a.1 b.1 = true

instance : DecidableRel entryLe := fun a b =>
  inferInstanceAs (Decidable (strLeB a.1 b.1 = true))

/-- Model of `json.dumps(v, sort_keys=True)` (with CPython's default
separators `', '` and `': '` and `ensure_ascii=True`), encoded to bytes.
The recursion is driven by a fuel argument that must exceed the
array/object nesting depth of `v`; descriptor values have depth 3 and are
always serialized with ample fuel. -/
def pyDumpsF : Nat → JValue → List Nat
  | _, .str s => renderJStr s
  | _, .int n => intStr n
  | 0, .arr _ => []
  | 0, .obj _ => []
  | fuel + 1, .arr l =>
    91 :: (joinSep [44, 32] (l.map (pyDumpsF fuel)) ++ [93])
  | fuel + 1, .obj d =>
    123 :: (joinSep [44, 32]
      ((List.insertionSort entryLe d).map
        (fun kv => renderJStr kv.1 ++ [58, 32] ++ pyDumpsF fuel kv.2)) ++ [125])

/-- The in-memory stream descriptor (`StreamDescriptor.__init__` fields). -/
structure Descriptor where
  stream_name : PyStr
  key : PyStr
  suggested_file_name : PyStr
  blobs : List BlobInfo
  stream_hash : PyStr
  sd_hash : Option PyStr
deriving DecidableEq, Repr

section WithHash

variable (H : List Nat → List Nat)

/-- Translation of `StreamDescriptor.get_blob_hashsum` (descriptor.py
118-133) over a blob's `as_dict` form: feeds `blob_hash` (when `length` is
non-zero), decimal `blob_num`, `iv`, decimal `length` into one hash object
and returns its raw digest.  Raises `KeyError` exactly when the source's
dict accesses would. -/
def get_blob_hashsum (b : List (PyStr × JValue)) : Except PyErr (List Nat) :=
  match jGetInt (.obj b) (pyStr "length") with
  | .error e => .error e
  | .ok length =>
    match (if length ≠ 0 then
            match jGetStr (.obj b) (pyStr "blob_hash") with
            | .error e => .error e
            | .ok h => .ok (some h)
          else .ok none : Except PyErr (Option PyStr)) with
    | .error e => .error e
    | .ok blob_hash =>
      match jGetInt (.obj b) (pyStr "blob_num") with
      | .error e => .error e
      | .ok blob_num =>
        match jGetStr (.obj b) (pyStr "iv") with
        | .error e => .error e
        | .ok iv =>
          .ok (H ((match blob_hash with | some h => h | none => []) ++
                  intStr blob_num ++ iv ++ intStr length))

/-- Translation of `StreamDescriptor.calculate_stream_hash` (descriptor.py
135-146): outer hash over hex stream name, key, hex suggested file name and
the raw digest of the inner hash folding each blob's raw `get_blob_hashsum`
digest. -/
def calculate_stream_hash (hex_stream_name : List Nat) (key : List Nat)
    (hex_suggested_file_name : List Nat) (blob_infos : List (List (PyStr × JValue))) :
    Except PyErr PyStr :=
  match mapME (get_blob_hashsum H) blob_infos with
  | .error e => .error e
  | .ok digests =>
    .ok (toHexStr (H (hex_stream_name ++ key ++ hex_suggested_file_name ++
                      H digests.flatten)))

/-- Body of `StreamDescriptor.get_stream_hash` (descriptor.py 60-65) as a
function of the descriptor fields: hexlifies the names, encodes the key and
hashes over the blobs' `as_dict` forms. -/
def stream_hash_of_parts (stream_name : PyStr) (key : PyStr)
    (suggested_file_name : PyStr) (blobs : List BlobInfo) : Except PyErr PyStr :=
  calculate_stream_hash H (toHexStr stream_name) key (toHexStr suggested_file_name)
    (blobs.map BlobInfo.as_dict)

/-- Translation of `StreamDescriptor.get_stream_hash`. -/
def get_stream_hash (d : Descriptor) : Except PyErr PyStr :=
  stream_hash_of_parts H d.stream_name d.key d.suggested_file_name d.blobs

/-- Translation of `StreamDescriptor.__init__` (descriptor.py 51-58):
`self.stream_hash = stream_hash or self.get_stream_hash()`, so a missing or
falsy (empty) `stream_hash` argument is recomputed from the other fields;
`sd_hash` stays as passed. -/
def descriptor_init (stream_name : PyStr) (key : PyStr) (suggested_file_name : PyStr)
    (blobs : List BlobInfo) (stream_hash : Option PyStr := none)
    (sd_hash : Option PyStr := none) : Except PyErr Descriptor :=
  match stream_hash with
  | some s =>
    if s = [] then
      match stream_hash_of_parts H stream_name key suggested_file_name blobs with
      | .error e => .error e
      | .ok c => .ok ⟨stream_name, key, suggested_file_name, blobs, c, sd_hash⟩
    else .ok ⟨stream_name, key, suggested_file_name, blobs, s, sd_hash⟩
  | none =>
    match stream_hash_of_parts H stream_name key suggested_file_name blobs with
    | .error e => .error e
    | .ok c => .ok ⟨stream_name, key, suggested_file_name, blobs, c, sd_hash⟩

end WithHash

/-- Translation of `format_sd_info` (descriptor.py 19-28), with the `blobs`
entries already in their JSON form. -/
def format_sd_info (stream_name : PyStr) (key : PyStr) (suggested_file_name : PyStr)
    (stream_hash : PyStr) (blobs : List JValue) : JValue :=
  .obj [(pyStr "stream_type", .str (pyStr "lbryfile")),
        (pyStr "stream_name", .str stream_name),
        (pyStr "key", .str key),
        (pyStr "suggested_file_name", .str suggested_file_name),
        (pyStr "stream_hash", .str stream_hash),
        (pyStr "blobs", .arr blobs)]

/-- The decoded JSON object of an SD blob with the descriptor's shape:
hex-encoded names, key, stream hash, and the blob dictionaries. -/
structure SdJson where
  stream_name_hex : PyStr
  key : PyStr
  suggested_file_name_hex : PyStr
  stream_hash : PyStr
  blobs : List BlobInfo
deriving DecidableEq, Repr

/-- The JSON value an `SdJson` stands for. -/
def sdJsonValue (x : SdJson) : JValue :=
  format_sd_info x.stream_name_hex x.key x.suggested_file_name_hex x.stream_hash
    (x.blobs.map (fun b => .obj b.as_dict))

/-- The JSON value `StreamDescriptor.as_json` serializes (descriptor.py
72-78): names hexlified, key and stream hash as stored, blobs via
`as_dict`. -/
def sd_info_value (d : Descriptor) : JValue :=
  sdJsonValue ⟨toHexStr d.stream_name, d.key, toHexStr d.suggested_file_name,
               d.stream_hash, d.blobs⟩

/-- Translation of `StreamDescriptor.as_json`:
`json.dumps(format_sd_info(...), sort_keys=True).encode()`. -/
def as_json (d : Descriptor) : List Nat := pyDumpsF 4 (sd_info_value d)

/-- Translation of `StreamDescriptor.calculate_sd_hash` (descriptor.py
67-70). -/
def calculate_sd_hash (H : List Nat → List Nat) (d : Descriptor) : PyStr :=
  toHexStr (H (as_json d))

/-- Translation of `StreamDescriptor.write_sd_blob_file` (descriptor.py
80-88).  The blob directory is modelled by the list of file names it
contains; the function computes and stores `sd_hash`, refuses to overwrite
an existing file at `<blob_dir>/<sd_hash>` by raising
`IOError("sd blob exists")`, and otherwise returns the written
`(name, bytes)` pair. -/
def write_sd_blob_file (H : List Nat → List Nat) (existing : List PyStr)
    (d : Descriptor) : Except PyErr (Descriptor × (PyStr × List Nat)) :=
  let sd := calculate_sd_hash H d
  if sd ∈ existing then .error (.ioError (pyStr "sd blob exists"))
  else .ok ({d with sd_hash := some sd}, (sd, as_json {d with sd_hash := some sd}))

/-- Translation of `StreamDescriptor._from_stream_descriptor_blob`
(descriptor.py 90-112), starting from the decoded JSON value (the JSON
decode of the blob's bytes is the identity on the structured value).  The
control flow follows the source line by line: terminator length check,
zero-length check over all but the last entry, terminator `blob_hash` key
check, reconstruction (hex-decoding the names, `.get` on `blob_hash`), and
the stream-hash re-derivation check. -/
def from_stream_descriptor_blob (H : List Nat → List Nat) (decoded : JValue) :
    Except PyErr Descriptor :=
  match jGet decoded (pyStr "blobs") with
  | .error e => .error e
  | .ok bv =>
    match asArr bv with
    | .error e => .error e
    | .ok blobsL =>
      match lastElem blobsL with
      | .error e => .error e
      | .ok lastB =>
        match jGetInt lastB (pyStr "length") with
        | .error e => .error e
        | .ok lastLen =>
          if lastLen ≠ 0 then .error (.invalidStreamDescriptor .missingTerminator)
          else
            match mapME (fun b => jGetInt b (pyStr "length")) blobsL.dropLast with
            | .error e => .error e
            | .ok lens =>
              if lens.any (fun l => l == 0) then
                .error (.invalidStreamDescriptor .zeroLengthDataBlob)
              else
                match jHasKey lastB (pyStr "blob_hash") with
                | .error e => .error e
                | .ok hk =>
                  if hk then .error (.invalidStreamDescriptor .terminatorHasHash)
                  else
                    match jGetStr decoded (pyStr "stream_name") with
                    | .error e => .error e
                    | .ok snHex =>
                      match unhexlify snHex with
                      | .error e => .error e
                      | .ok sn =>
                        match jGetStr decoded (pyStr "key") with
                        | .error e => .error e
                        | .ok key =>
                          match jGetStr decoded (pyStr "suggested_file_name") with
                          | .error e => .error e
                          | .ok sfnHex =>
                            match unhexlify sfnHex with
                            | .error e => .error e
                            | .ok sfn =>
                              match mapME (fun info =>
                                  match jGetInt info (pyStr "blob_num") with
                                  | .error e => .error e
                                  | .ok num =>
                                    match jGetInt info (pyStr "length") with
                                    | .error e => .error e
                                    | .ok len =>
                                      match jGetStr info (pyStr "iv") with
                                      | .error e => .error e
                                      | .ok iv =>
                                        match jGetOptStr info (pyStr "blob_hash") with
                                        | .error e => .error e
                                        | .ok bh => .ok (BlobInfo.mk num len iv bh))
                                  blobsL with
                              | .error e => .error e
                              | .ok binfos =>
                                match jGetStr decoded (pyStr "stream_hash") with
                                | .error e => .error e
                                | .ok sh =>
                                  match descriptor_init H sn key sfn binfos (some sh) none with
                                  | .error e => .error e
                                  | .ok descriptor =>
                                    match get_stream_hash H descriptor with
                                    | .error e => .error e
                                    | .ok rh =>
                                      if rh ≠ sh then
                                        .error (.invalidStreamDescriptor .streamHashMismatch)
                                      else .ok descriptor

/-- Modelled from the spec: `MAX_BLOB_SIZE` is imported from `lbrynet.blob`
(outside this repository); spec §3 and §6 fix it at 2 MiB. -/
def MAX_BLOB_SIZE : Nat := 2097152

/-- Fuel-driven chunking loop; the fuel is the remaining byte count, which
bounds the number of iterations since every chunk is non-empty. -/
def chunksGo (k : Nat) : Nat → List Nat → List (List Nat)
  | 0, _ => []
  | fuel + 1, l => if l = [] then [] else l.take k :: chunksGo k fuel (l.drop k)

/-- Translation of `file_reader` (descriptor.py 36-47): yields successive
chunks of `MAX_BLOB_SIZE - 1` bytes of the file (the final chunk may be
shorter) and stops when no bytes remain, so a zero-length chunk is never
yielded. -/
def file_reader (fileBytes : List Nat) : List (List Nat) :=
  chunksGo (MAX_BLOB_SIZE - 1) fileBytes.length fileBytes

/-- The `BlobInfo` the `wrote_blob_callback` closure of `create_stream`
(descriptor.py 165-167) appends for data blob `i`: blob number, ciphertext
length, hexlified IV and the ciphertext's hex digest.  `E` is the AES-CBC
encryption of `BlobFile.create_from_unencrypted` (modelled from the spec,
the class is outside this repository): `E key iv plaintext` is the
ciphertext, its hex digest under `H` is the blob hash and its length the
blob length. -/
def data_blob_info (H : List Nat → List Nat) (E : PyStr → PyStr → List Nat → List Nat)
    (key : PyStr) (ivs : Nat → PyStr) (chunks : List (List Nat)) (i : Nat) : BlobInfo :=
  ⟨Int.ofNat i, Int.ofNat (E key (ivs i) (chunks.getD i [])).length,
   toHexStr (ivs i), some (toHexStr (H (E key (ivs i) (chunks.getD i []))))⟩

/-- Order on collected blob infos used by the `blobs.sort` call of
`create_stream` (descriptor.py 189): stable comparison on `blob_num`.
`List.insertionSort` is stable, so it has the semantics Python guarantees
for `list.sort`. -/
def blobNumLe (a b : BlobInfo) : Prop := a.blob_num ≤ b.blob_num

instance : DecidableRel blobNumLe := fun a b =>
  inferInstanceAs (Decidable (a.blob_num ≤ b.blob_num))

/-- Translation of `StreamDescriptor.create_stream` (descriptor.py
157-197).  The nondeterministic completion order of the batched blob-write
tasks is an explicit argument `order`: the callback appends the data blobs'
`BlobInfo`s in that order, and the list is then sorted by `blob_num`, the
terminator (with the next IV from the generator) appended, the descriptor
built with `stream_name = suggested_file_name = basename(file_path)` and the
hexlified key, and the SD blob written (`save_to_database` touches only the
external storage collaborator and is not modelled).  The returned pair is
the descriptor and the `(name, bytes)` files written into the blob
directory. -/
def create_stream (H : List Nat → List Nat) (E : PyStr → PyStr → List Nat → List Nat)
    (fileName : PyStr) (fileBytes : List Nat) (key : PyStr) (ivs : Nat → PyStr)
    (order : List Nat) (existingFiles : List PyStr) :
    Except PyErr (Descriptor × List (PyStr × List Nat)) :=
  let chunks := file_reader fileBytes
  let collected := order.map (data_blob_info H E key ivs chunks)
  let sorted := List.insertionSort blobNumLe collected
  let blobs := sorted ++ [⟨Int.ofNat sorted.length, 0, toHexStr (ivs chunks.length), none⟩]
  let blobWrites := (List.range chunks.length).map
    (fun i => (toHexStr (H (E key (ivs i) (chunks.getD i []))), E key (ivs i) (chunks.getD i [])))
  match descriptor_init H fileName (toHexStr key) fileName blobs none none with
  | .error e => .error e
  | .ok d =>
    match write_sd_blob_file H (existingFiles ++ blobWrites.map Prod.fst) d with
    | .error e => .error e
    | .ok (d2, sdw) => .ok (d2, blobWrites ++ [sdw])

deriving instance DecidableEq for Except

/-- Specification-side rendering of one blob's inner hash input, following
the claim's words: the inner hash is fed, in order, the blob hash as an
ASCII hex string (only when the length is non-zero), the blob number as
decimal ASCII, the IV as an ASCII hex string, and the length as decimal
ASCII; the value is the raw digest. -/
def blob_hashsum_spec (H : List Nat → List Nat) (b : BlobInfo) : List Nat :=
  H ((if b.length ≠ 0 then b.blob_hash.getD [] else []) ++
     intStr b.blob_num ++ b.iv ++ intStr b.length)

/-- Specification-side layered stream hash, following the claim's words:
each blob's raw 48-byte inner digest is folded into an inner blobs hash;
the outer shash is fed the hex of the stream name, the key as the ASCII of
its hex form, the hex of the suggested file name and the raw digest of the
inner blobs hash; the stream hash is the outer hexdigest. -/
def stream_hash_spec (H : List Nat → List Nat) (stream_name : PyStr) (key : PyStr)
    (suggested_file_name : PyStr) (blobs : List BlobInfo) : PyStr :=
  toHexStr (H (toHexStr stream_name ++ key ++ toHexStr suggested_file_name ++
               H ((blobs.map (blob_hashsum_spec H)).flatten)))

/-- Quoted JSON rendering of a raw (escape-free) string body. -/
def quoteRaw (s : PyStr) : List Nat := 34 :: (s ++ [34])

/-- Quoted JSON rendering of an ASCII literal key. -/
def quoteLit (s : String) : List Nat := quoteRaw (pyStr s)

/-- Specification-side serialization of one blob dictionary with the given
item and key separators; keys in sorted order, `blob_hash` omitted on the
terminator. -/
def blob_json_with (sI sK : List Nat) (b : BlobInfo) : List Nat :=
  123 :: ((match b.blob_hash with
           | some h => quoteLit "blob_hash" ++ sK ++ quoteRaw h ++ sI
           | none => []) ++
          (quoteLit "blob_num" ++ sK ++ intStr b.blob_num ++ sI ++
           (quoteLit "iv" ++ sK ++ quoteRaw b.iv ++ sI ++
            (quoteLit "length" ++ sK ++ intStr b.length ++ [125]))))

/-- Specification-side canonical serialization of a descriptor with the
given separators, following the spec's §4.4 shape: a JSON object whose keys
appear in sorted order at every level, `stream_type` fixed to `lbryfile`,
the names as hex of their UTF-8 bytes, `key` and `stream_hash` as the
stored hex strings, and the ordered blobs list. -/
def canonical_json_with (sI sK : List Nat) (d : Descriptor) : List Nat :=
  123 :: (quoteLit "blobs" ++ sK ++
          (91 :: (joinSep sI (d.blobs.map (blob_json_with sI sK)) ++ [93])) ++ sI ++
          (quoteLit "key" ++ sK ++ quoteRaw d.key ++ sI ++
           (quoteLit "stream_hash" ++ sK ++ quoteRaw d.stream_hash ++ sI ++
            (quoteLit "stream_name" ++ sK ++ quoteRaw (toHexStr d.stream_name) ++ sI ++
             (quoteLit "stream_type" ++ sK ++ quoteLit "lbryfile" ++ sI ++
              (quoteLit "suggested_file_name" ++ sK ++
               quoteRaw (toHexStr d.suggested_file_name) ++ [125]))))))

/-- The claim's canonical serialization: sorted keys and no insignificant
whitespace. -/
def canonical_json_nows (d : Descriptor) : List Nat :=
  canonical_json_with [44] [58] d

/-- The serialization the source actually produces: sorted keys, with
CPython's default separators (a single space after each item comma and each
key colon). -/
def canonical_json_spaced (d : Descriptor) : List Nat :=
  canonical_json_with [44, 32] [58, 32] d

/-- Specification-side description of the ingest validation sequence,
following the spec's words: terminator length check (`missing terminator`),
zero-length check on all other entries (`zero-length data blob`),
terminator hash check (`terminator has hash`), reconstruction, and
stream-hash re-derivation check (`stream hash mismatch`); a descriptor is
returned exactly when every check passes.  Indexing the last entry of an
empty blob list and hex-decoding the names surface their own errors. -/
def ingest_checks_spec (H : List Nat → List Nat) (x : SdJson) : Except PyErr Descriptor :=
  match x.blobs.getLast? with
  | none => .error .indexError
  | some last =>
    if last.length ≠ 0 then .error (.invalidStreamDescriptor .missingTerminator)
    else if x.blobs.dropLast.any (fun b => b.length == 0) then
      .error (.invalidStreamDescriptor .zeroLengthDataBlob)
    else if last.blob_hash.isSome then .error (.invalidStreamDescriptor .terminatorHasHash)
    else
      match unhexlify x.stream_name_hex with
      | .error e => .error e
      | .ok sn =>
        match unhexlify x.suggested_file_name_hex with
        | .error e => .error e
        | .ok sfn =>
          match get_stream_hash H ⟨sn, x.key, sfn, x.blobs, x.stream_hash, none⟩ with
          | .error e => .error e
          | .ok rh =>
            if rh ≠ x.stream_hash then .error (.invalidStreamDescriptor .streamHashMismatch)
            else .ok ⟨sn, x.key, sfn, x.blobs, x.stream_hash, none⟩

/-- The blob-list invariant of claim C5 as an executable check: blob
numbers dense from 0, exactly one zero-length entry, that entry last and
without a hash, and no non-terminator entry of length zero. -/
def blob_list_invariant (blobs : List BlobInfo) : Bool :=
  blobs.enum.all (fun p => p.2.blob_num == Int.ofNat p.1) &&
  ((blobs.countP (fun b => b.length == 0) == 1) &&
   ((match blobs.getLast? with
     | some last => (last.length == 0) && last.blob_hash.isNone
     | none => false) &&
    blobs.dropLast.all (fun b => !(b.length == 0))))

/-- The round-trip property exactly as claim C4 states it: parsing the
canonical serialization returns a descriptor equal to `d` on every field,
`sd_hash` included. -/
def round_trip_claim (H : List Nat → List Nat) (d : Descriptor) : Bool :=
  match from_stream_descriptor_blob H (sd_info_value d) with
  | .ok p => p == d
  | .error _ => false

/-- The round trip that actually holds: parsing the canonical serialization
returns a descriptor equal to `d` on every field except `sd_hash`, which is
left unset by `_from_stream_descriptor_blob`. -/
def round_trip_amended (H : List Nat → List Nat) (d : Descriptor) : Bool :=
  (match from_stream_descriptor_blob H (sd_info_value d) with
   | .ok p => p == {d with sd_hash := none}
   | .error _ => false) && d.sd_hash.isSome

/-- Concrete hash function used to instantiate witnesses: one output byte,
never the empty digest. -/
def H0 (l : List Nat) : List Nat := [l.length % 251]

/-- Concrete cipher used to instantiate witnesses: identity with PKCS#7
padding, so its output length obeys the AES-CBC length law. -/
def E0 (_key _iv : PyStr) (p : List Nat) : List Nat :=
  p ++ List.replicate (16 - p.length % 16) (16 - p.length % 16)

/-- Concrete IV generator for witnesses. -/
def ivs0 (i : Nat) : PyStr := [i % 256, 1]

theorem hexVal_hexDigit (n : Nat) : hexVal (hexDigit n) = some (n % 16) := by
  have h : n % 16 < 16 := Nat.mod_lt _ (by omega)
  unfold hexDigit hexVal
  interval_cases h : n % 16 <;> simp

theorem unhexlify_toHexStr (l : List Nat) (h : ∀ b ∈ l, b < 256) :
    unhexlify (toHexStr l) = .ok l := by
  induction l with
  | nil => rfl
  | cons b tl ih =>
    have hb : b < 256 := h b (by simp)
    have htl := ih (fun x hx => h x (by simp [hx]))
    have hdiv : b / 16 % 16 = b / 16 := Nat.mod_eq_of_lt (by omega)
    have hstep : toHexStr (b :: tl) = hexDigit (b / 16) :: hexDigit b :: toHexStr tl := by
      simp [toHexStr]
    rw [hstep]
    simp only [unhexlify, hexVal_hexDigit, hdiv, htl]
    have : 16 * (b / 16) + b % 16 = b := by omega
    rw [this]

theorem plainChar_hexDigit (n : Nat) : PlainChar (hexDigit n) := by
  have h : n % 16 < 16 := Nat.mod_lt _ (by omega)
  unfold hexDigit PlainChar
  split <;> omega

theorem plainChar_toHexStr (l : List Nat) : ∀ c ∈ toHexStr l, PlainChar c := by
  intro c hc
  simp only [toHexStr, List.mem_flatMap] at hc
  obtain ⟨b, -, hb⟩ := hc
  simp only [List.mem_cons, List.mem_singleton] at hb
  rcases hb with h | h | h
  · exact h ▸ plainChar_hexDigit _
  · exact h ▸ plainChar_hexDigit _
  · exact absurd h (by simp)

theorem escapeChar_plain {c : Nat} (h : PlainChar c) : escapeChar c = [c] := by
  obtain ⟨h1, h2, h3, h4⟩ := h
  unfold escapeChar
  rw [if_neg h3, if_neg h4, if_neg (by omega), if_neg (by omega), if_neg (by omega),
    if_neg (by omega), if_neg (by omega), if_neg (by omega)]

theorem escapeStr_plain {s : PyStr} (h : ∀ c ∈ s, PlainChar c) : escapeStr s = s := by
  induction s with
  | nil => rfl
  | cons c tl ih =>
    have hstep : escapeStr (c :: tl) = escapeChar c ++ escapeStr tl := by
      simp [escapeStr]
    rw [hstep, escapeChar_plain (h c (by simp)), ih (fun x hx => h x (by simp [hx]))]
    rfl

theorem renderJStr_plain {s : PyStr} (h : ∀ c ∈ s, PlainChar c) :
    renderJStr s = quoteRaw s := by
  simp [renderJStr, quoteRaw, escapeStr_plain h]

theorem renderJStr_hex (l : List Nat) : renderJStr (toHexStr l) = quoteRaw (toHexStr l) :=
  renderJStr_plain (plainChar_toHexStr l)

theorem toHexStr_ne_nil {l : List Nat} (h : l ≠ []) : toHexStr l ≠ [] := by
  cases l with
  | nil => exact absurd rfl h
  | cons b tl => simp [toHexStr]

theorem dropLast_map (f : α → β) (l : List α) :
    (l.map f).dropLast = l.dropLast.map f := by
  induction l with
  | nil => rfl
  | cons a tl ih =>
    cases tl with
    | nil => rfl
    | cons b tl2 => simpa [List.dropLast] using ih

theorem getLast?_map (f : α → β) (l : List α) :
    (l.map f).getLast? = l.getLast?.map f := by
  induction l with
  | nil => rfl
  | cons a tl ih =>
    cases tl with
    | nil => rfl
    | cons b tl2 => simpa [List.getLast?_cons_cons] using ih

/-- Blob-info lists whose dict accesses in `get_blob_hashsum` cannot raise:
a `blob_hash` entry is present whenever the length is non-zero. -/
def HashReady (blobs : List BlobInfo) : Prop :=
  ∀ b ∈ blobs, b.length ≠ 0 → b.blob_hash.isSome

instance (blobs : List BlobInfo) : Decidable (HashReady blobs) := by
  unfold HashReady; infer_instance

theorem get_blob_hashsum_as_dict (H : List Nat → List Nat) (b : BlobInfo)
    (h : b.length ≠ 0 → b.blob_hash.isSome) :
    get_blob_hashsum H b.as_dict = .ok (blob_hashsum_spec H b) := by
  rcases b with ⟨num, len, iv, bh⟩
  cases bh with
  | some hh =>
    by_cases hl : len = 0 <;>
      simp +decide [get_blob_hashsum, BlobInfo.as_dict, blob_hashsum_spec, jGetInt, jGetStr,
        jGet, jLookup, hl]
  | none =>
    by_cases hl : len = 0
    · simp +decide [get_blob_hashsum, BlobInfo.as_dict, blob_hashsum_spec, jGetInt, jGetStr,
        jGet, jLookup, hl]
    · simp only [Option.isSome_none] at h
      exact absurd (h (by simpa using hl)) (by simp)

theorem mapME_blob_hashsum (H : List Nat → List Nat) (blobs : List BlobInfo)
    (h : HashReady blobs) :
    mapME (get_blob_hashsum H) (blobs.map BlobInfo.as_dict) =
      .ok (blobs.map (blob_hashsum_spec H)) := by
  induction blobs with
  | nil => rfl
  | cons b tl ih =>
    simp only [List.map_cons, mapME,
      get_blob_hashsum_as_dict H b (h b (by simp)),
      ih (fun x hx hne => h x (by simp [hx]) hne)]

theorem stream_hash_of_parts_ok (H : List Nat → List Nat) (n k s : PyStr)
    (blobs : List BlobInfo) (h : HashReady blobs) :
    stream_hash_of_parts H n k s blobs = .ok (stream_hash_spec H n k s blobs) := by
  simp only [stream_hash_of_parts, calculate_stream_hash, mapME_blob_hashsum H blobs h,
    stream_hash_spec]

theorem descriptor_init_none (H : List Nat → List Nat) (n k s : PyStr)
    (blobs : List BlobInfo) (h : HashReady blobs) :
    descriptor_init H n k s blobs none none =
      .ok ⟨n, k, s, blobs, stream_hash_spec H n k s blobs, none⟩ := by
  simp only [descriptor_init, stream_hash_of_parts_ok H n k s blobs h]

theorem get_stream_hash_eq (H : List Nat → List Nat) (d : Descriptor)
    (h : HashReady d.blobs) :
    get_stream_hash H d =
      .ok (stream_hash_spec H d.stream_name d.key d.suggested_file_name d.blobs) := by
  simp only [get_stream_hash, stream_hash_of_parts_ok H _ _ _ _ h]

/-- C1: for every `StreamDescriptor` built by the constructor (which
computes the stream hash when none is passed), the stored `stream_hash` is
exactly the spec's layered construction — per blob an inner hash over the
hex `blob_hash` (only when the length is non-zero), decimal `blob_num`, hex
`iv` and decimal `length`, each inner raw digest folded into an inner blobs
hash, and an outer hash over hex stream name, key, hex suggested file name
and the inner raw digest — and recomputing the stream hash from the
descriptor's fields (`get_stream_hash`) reproduces `stream_hash`. -/
theorem C1_stream_hash_layered (H : List Nat → List Nat)
    (stream_name key suggested_file_name : PyStr) (blobs : List BlobInfo)
    (h : HashReady blobs) :
    descriptor_init H stream_name key suggested_file_name blobs none none =
      .ok ⟨stream_name, key, suggested_file_name, blobs,
           stream_hash_spec H stream_name key suggested_file_name blobs, none⟩ ∧
    get_stream_hash H
        ⟨stream_name, key, suggested_file_name, blobs,
         stream_hash_spec H stream_name key suggested_file_name blobs, none⟩ =
      .ok (stream_hash_spec H stream_name key suggested_file_name blobs) := by
  refine ⟨descriptor_init_none H _ _ _ _ h, ?_⟩
  exact get_stream_hash_eq H _ h

/-- Witness for C1 at a concrete one-terminator blob list. -/
theorem C1_stream_hash_layered_witness :
    HashReady [⟨0, 0, pyStr "aa", none⟩] ∧
    (descriptor_init H0 (pyStr "a") (pyStr "00") (pyStr "b")
        [⟨0, 0, pyStr "aa", none⟩] none none =
      .ok ⟨pyStr "a", pyStr "00", pyStr "b", [⟨0, 0, pyStr "aa", none⟩],
           stream_hash_spec H0 (pyStr "a") (pyStr "00") (pyStr "b")
             [⟨0, 0, pyStr "aa", none⟩], none⟩ ∧
    get_stream_hash H0
        ⟨pyStr "a", pyStr "00", pyStr "b", [⟨0, 0, pyStr "aa", none⟩],
         stream_hash_spec H0 (pyStr "a") (pyStr "00") (pyStr "b")
           [⟨0, 0, pyStr "aa", none⟩], none⟩ =
      .ok (stream_hash_spec H0 (pyStr "a") (pyStr "00") (pyStr "b")
           [⟨0, 0, pyStr "aa", none⟩])) :=
  ⟨by decide, C1_stream_hash_layered H0 (pyStr "a") (pyStr "00") (pyStr "b")
    [⟨0, 0, pyStr "aa", none⟩] (by decide)⟩

theorem orderedInsert_data_blob (H : List Nat → List Nat)
    (E : PyStr → PyStr → List Nat → List Nat) (key : PyStr) (ivs : Nat → PyStr)
    (chunks : List (List Nat)) (a : Nat) (l : List Nat) :
    List.orderedInsert blobNumLe (data_blob_info H E key ivs chunks a)
        (l.map (data_blob_info H E key ivs chunks)) =
      (List.orderedInsert (· ≤ ·) a l).map (data_blob_info H E key ivs chunks) := by
  induction l with
  | nil => rfl
  | cons b tl ih =>
    by_cases hab : a ≤ b
    · rw [List.map_cons, List.orderedInsert,
        if_pos (by simp [blobNumLe, data_blob_info]; omega),
        List.orderedInsert, if_pos hab, List.map_cons, List.map_cons]
    · rw [List.map_cons, List.orderedInsert,
        if_neg (by simp [blobNumLe, data_blob_info]; omega),
        List.orderedInsert, if_neg hab, List.map_cons, ih]

theorem insertionSort_data_blob (H : List Nat → List Nat)
    (E : PyStr → PyStr → List Nat → List Nat) (key : PyStr) (ivs : Nat → PyStr)
    (chunks : List (List Nat)) (l : List Nat) :
    List.insertionSort blobNumLe (l.map (data_blob_info H E key ivs chunks)) =
      (List.insertionSort (· ≤ ·) l).map (data_blob_info H E key ivs chunks) := by
  induction l with
  | nil => rfl
  | cons a tl ih =>
    rw [List.map_cons, List.insertionSort, ih, List.insertionSort,
      orderedInsert_data_blob]

theorem insertionSort_perm_range {l : List Nat} {n : Nat}
    (h : l.Perm (List.range n)) :
    List.insertionSort (· ≤ ·) l = List.range n := by
  refine List.eq_of_perm_of_sorted ((List.perm_insertionSort _ l).trans h)
    (List.sorted_insertionSort _ l) ?_
  exact (List.pairwise_le_range n)

theorem sorted_collected (H : List Nat → List Nat)
    (E : PyStr → PyStr → List Nat → List Nat) (key : PyStr) (ivs : Nat → PyStr)
    (chunks : List (List Nat)) {order : List Nat} {n : Nat}
    (h : order.Perm (List.range n)) :
    List.insertionSort blobNumLe (order.map (data_blob_info H E key ivs chunks)) =
      (List.range n).map (data_blob_info H E key ivs chunks) := by
  rw [insertionSort_data_blob, insertionSort_perm_range h]

theorem hashReady_data_terminator (H : List Nat → List Nat)
    (E : PyStr → PyStr → List Nat → List Nat) (key : PyStr) (ivs : Nat → PyStr)
    (chunks : List (List Nat)) (n : Nat) (m : Int) (iv : PyStr) :
    HashReady ((List.range n).map (data_blob_info H E key ivs chunks) ++
      [⟨m, 0, iv, none⟩]) := by
  intro b hb
  rcases List.mem_append.mp hb with hl | hr
  · obtain ⟨i, -, hi⟩ := List.mem_map.mp hl
    intro _
    rw [← hi]
    simp [data_blob_info]
  · intro hne
    simp only [List.mem_singleton] at hr
    rw [hr] at hne
    exact absurd rfl hne

theorem create_stream_char (H : List Nat → List Nat)
    (E : PyStr → PyStr → List Nat → List Nat) (nm : PyStr) (bytes : List Nat)
    (key : PyStr) (ivs : Nat → PyStr) (files : List PyStr) {order : List Nat}
    (h : order.Perm (List.range (file_reader bytes).length)) :
    create_stream H E nm bytes key ivs order files =
      (let chunks := file_reader bytes
       let dataBlobs := (List.range chunks.length).map (data_blob_info H E key ivs chunks)
       let blobs := dataBlobs ++
         [⟨Int.ofNat dataBlobs.length, 0, toHexStr (ivs chunks.length), none⟩]
       let dPre : Descriptor := ⟨nm, toHexStr key, nm, blobs,
         stream_hash_spec H nm (toHexStr key) nm blobs, none⟩
       let blobWrites := (List.range chunks.length).map
         (fun i => (toHexStr (H (E key (ivs i) (chunks.getD i []))),
                    E key (ivs i) (chunks.getD i [])))
       let sd := calculate_sd_hash H dPre
       if sd ∈ files ++ blobWrites.map Prod.fst then
         .error (.ioError (pyStr "sd blob exists"))
       else
         .ok ({dPre with sd_hash := some sd},
              blobWrites ++ [(sd, as_json {dPre with sd_hash := some sd})])) := by
  simp only [create_stream]
  rw [sorted_collected H E key ivs _ h,
    descriptor_init_none H _ _ _ _ (hashReady_data_terminator H E key ivs _ _ _ _)]
  simp only [write_sd_blob_file]
  split_ifs <;> rfl

/-- C6: `create_stream` is deterministic in everything but the completion
order of the parallel blob writes, and the sort by `blob_num` cancels that
nondeterminism: two runs on the same file bytes with the same key and the
same IV sequence return identical results — the same descriptor (hence the
same `stream_hash` and `sd_hash`) and byte-for-byte identical blob files —
whatever completion orders the two runs saw. -/
theorem C6_create_stream_idempotent (H : List Nat → List Nat)
    (E : PyStr → PyStr → List Nat → List Nat) (nm : PyStr) (bytes : List Nat)
    (key : PyStr) (ivs : Nat → PyStr) (files : List PyStr) {o1 o2 : List Nat}
    (h1 : o1.Perm (List.range (file_reader bytes).length))
    (h2 : o2.Perm (List.range (file_reader bytes).length)) :
    create_stream H E nm bytes key ivs o1 files =
      create_stream H E nm bytes key ivs o2 files := by
  rw [create_stream_char H E nm bytes key ivs files h1,
    create_stream_char H E nm bytes key ivs files h2]

/-- Witness for C6 on a two-byte file (one data blob). -/
theorem C6_create_stream_idempotent_witness :
    List.Perm [0] (List.range (file_reader (pyStr "hi")).length) ∧
    create_stream H0 E0 (pyStr "f") (pyStr "hi") [7, 7] ivs0 [0] [] =
      create_stream H0 E0 (pyStr "f") (pyStr "hi") [7, 7] ivs0 [0] [] :=
  ⟨by decide, C6_create_stream_idempotent H0 E0 (pyStr "f") (pyStr "hi") [7, 7] ivs0 []
    (by decide) (by decide)⟩

/-- C9: on a zero-length source file `create_stream` produces a stream
whose blob list is exactly the terminator: blob number 0, length 0, no
blob hash, carrying the first IV drawn from the generator. -/
theorem C9_empty_file (H : List Nat → List Nat)
    (E : PyStr → PyStr → List Nat → List Nat) (nm : PyStr) (key : PyStr)
    (ivs : Nat → PyStr) :
    (create_stream H E nm [] key ivs [] []).toOption.map (fun r => r.1.blobs) =
      some [⟨0, 0, toHexStr (ivs 0), none⟩] := by
  rw [create_stream_char H E nm [] key ivs [] (by decide)]
  simp only [file_reader, List.length_nil, chunksGo, List.range_zero, List.map_nil,
    List.nil_append]
  rw [if_neg (List.not_mem_nil _)]
  rfl

/-- C7: when a file named by the descriptor's SD hash is already present in
the blob directory, `create_stream` fails through its SD-blob write with
`IOError("sd blob exists")` (the error the spec names `SDBlobExists`),
refusing to overwrite the content-addressed file. -/
theorem C7_sd_blob_exists (H : List Nat → List Nat)
    (E : PyStr → PyStr → List Nat → List Nat) (nm : PyStr) (bytes : List Nat)
    (key : PyStr) (ivs : Nat → PyStr) (files : List PyStr) {order : List Nat}
    (hperm : order.Perm (List.range (file_reader bytes).length))
    (h : (let chunks := file_reader bytes
          let dataBlobs := (List.range chunks.length).map
            (data_blob_info H E key ivs chunks)
          let blobs := dataBlobs ++
            [⟨Int.ofNat dataBlobs.length, 0, toHexStr (ivs chunks.length), none⟩]
          calculate_sd_hash H ⟨nm, toHexStr key, nm, blobs,
            stream_hash_spec H nm (toHexStr key) nm blobs, none⟩) ∈ files) :
    create_stream H E nm bytes key ivs order files =
      .error (.ioError (pyStr "sd blob exists")) := by
  rw [create_stream_char H E nm bytes key ivs files hperm]
  exact if_pos (List.mem_append_left _ h)

/-- Witness for C7: an empty file whose SD hash is already in the blob
directory. -/
theorem C7_sd_blob_exists_witness :
    (calculate_sd_hash H0 ⟨pyStr "f", toHexStr [7, 7], pyStr "f",
        [⟨0, 0, toHexStr (ivs0 0), none⟩],
        stream_hash_spec H0 (pyStr "f") (toHexStr [7, 7]) (pyStr "f")
          [⟨0, 0, toHexStr (ivs0 0), none⟩], none⟩ ∈
      [calculate_sd_hash H0 ⟨pyStr "f", toHexStr [7, 7], pyStr "f",
        [⟨0, 0, toHexStr (ivs0 0), none⟩],
        stream_hash_spec H0 (pyStr "f") (toHexStr [7, 7]) (pyStr "f")
          [⟨0, 0, toHexStr (ivs0 0), none⟩], none⟩]) ∧
    create_stream H0 E0 (pyStr "f") [] [7, 7] ivs0 []
        [calculate_sd_hash H0 ⟨pyStr "f", toHexStr [7, 7], pyStr "f",
          [⟨0, 0, toHexStr (ivs0 0), none⟩],
          stream_hash_spec H0 (pyStr "f") (toHexStr [7, 7]) (pyStr "f")
            [⟨0, 0, toHexStr (ivs0 0), none⟩], none⟩] =
      .error (.ioError (pyStr "sd blob exists")) :=
  ⟨by decide, C7_sd_blob_exists H0 E0 (pyStr "f") [] [7, 7] ivs0 _ (by decide) (by decide)⟩

theorem enumFrom_all_blob_num (f : Nat → BlobInfo) (hf : ∀ i, (f i).blob_num = Int.ofNat i)
    (iv : PyStr) :
    ∀ (n k : Nat),
      (List.enumFrom k ((List.range' k n).map f ++ [⟨Int.ofNat (k + n), 0, iv, none⟩])).all
        (fun p => p.2.blob_num == Int.ofNat p.1) = true := by
  intro n
  induction n with
  | zero => intro k; simp [List.enumFrom]
  | succ m ih =>
    intro k
    have hr : List.range' k (m + 1) = k :: List.range' (k + 1) m := by
      simp [List.range'_succ]
    rw [hr]
    simp only [List.map_cons, List.cons_append, List.enumFrom, List.all_cons, List.append_eq]
    rw [show k + (m + 1) = (k + 1) + m from by omega]
    rw [ih (k + 1)]
    simp [hf k]

theorem data_blob_length_ne_zero (H : List Nat → List Nat)
    (E : PyStr → PyStr → List Nat → List Nat) (key : PyStr) (ivs : Nat → PyStr)
    (chunks : List (List Nat))
    (hE : ∀ k i p, (E k i p).length = 16 * (p.length / 16 + 1)) (i : Nat) :
    ¬((data_blob_info H E key ivs chunks i).length == 0) = true := by
  simp only [data_blob_info, hE, beq_iff_eq, Int.ofNat_eq_coe]
  intro hcon
  have h2 : (16 : Nat) * ((chunks.getD i []).length / 16 + 1) = 0 := by exact_mod_cast hcon
  omega

theorem blob_list_invariant_canon (H : List Nat → List Nat)
    (E : PyStr → PyStr → List Nat → List Nat) (key : PyStr) (ivs : Nat → PyStr)
    (chunks : List (List Nat)) (iv : PyStr) (n : Nat)
    (hE : ∀ k i p, (E k i p).length = 16 * (p.length / 16 + 1)) :
    blob_list_invariant ((List.range n).map (data_blob_info H E key ivs chunks) ++
      [⟨Int.ofNat n, 0, iv, none⟩]) = true := by
  have hlen : ∀ b ∈ (List.range n).map (data_blob_info H E key ivs chunks),
      ¬(b.length == 0) = true := by
    intro b hb
    obtain ⟨i, -, hi⟩ := List.mem_map.mp hb
    rw [← hi]
    exact data_blob_length_ne_zero H E key ivs chunks hE i
  unfold blob_list_invariant
  refine (Bool.and_eq_true _ _).mpr ⟨?_, (Bool.and_eq_true _ _).mpr
    ⟨?_, (Bool.and_eq_true _ _).mpr ⟨?_, ?_⟩⟩⟩
  · have := enumFrom_all_blob_num (data_blob_info H E key ivs chunks)
      (fun i => rfl) iv n 0
    rw [List.range_eq_range']
    simpa [List.enum] using this
  · rw [List.countP_append]
    rw [List.countP_eq_zero.mpr hlen]
    simp
  · rw [List.getLast?_concat]
    simp
  · rw [List.dropLast_concat, List.all_eq_true]
    intro b hb
    simpa using hlen b hb

theorem E0_length (k i : PyStr) (p : List Nat) :
    (E0 k i p).length = 16 * (p.length / 16 + 1) := by
  have h1 := Nat.div_add_mod p.length 16
  have h2 : p.length % 16 < 16 := Nat.mod_lt _ (by omega)
  simp only [E0, List.length_append, List.length_replicate]
  omega

/-- C5: every stream `create_stream` produces satisfies the blob-list
invariant, whatever completion order the parallel blob writes finished in:
`blobs[i].blob_num = i` for all `i`, exactly one zero-length entry, that
entry last and without a `blob_hash`, and no non-terminator entry of length
zero.  The cipher hypothesis is the AES-CBC/PKCS#7 length law of the spec's
§4.3 (`BlobFile` lives outside this repository). -/
theorem C5_blob_list_invariant (H : List Nat → List Nat)
    (E : PyStr → PyStr → List Nat → List Nat) (nm : PyStr) (bytes : List Nat)
    (key : PyStr) (ivs : Nat → PyStr) (files : List PyStr) {order : List Nat}
    (hE : ∀ k i p, (E k i p).length = 16 * (p.length / 16 + 1))
    (hperm : order.Perm (List.range (file_reader bytes).length)) :
    (match create_stream H E nm bytes key ivs order files with
     | .ok r => blob_list_invariant r.1.blobs
     | .error _ => true) = true := by
  rw [create_stream_char H E nm bytes key ivs files hperm]
  unfold_let
  split_ifs with hc
  · rfl
  · have := blob_list_invariant_canon H E key ivs (file_reader bytes)
      (toHexStr (ivs (file_reader bytes).length)) (file_reader bytes).length hE
    simpa [List.length_map, List.length_range] using this

/-- Witness for C5 on a two-byte file. -/
theorem C5_blob_list_invariant_witness :
    (match create_stream H0 E0 (pyStr "f") (pyStr "hi") [7, 7] ivs0 [0] [] with
     | .ok r => blob_list_invariant r.1.blobs
     | .error _ => true) = true :=
  @C5_blob_list_invariant H0 E0 (pyStr "f") (pyStr "hi") [7, 7] ivs0 [] [0] E0_length (by decide)

theorem chunksGo_nil (k fuel : Nat) : chunksGo k fuel [] = [] := by
  cases fuel <;> simp [chunksGo]

theorem chunksGo_flatten (k : Nat) (hk : 1 ≤ k) :
    ∀ (fuel : Nat) (l : List Nat), l.length ≤ fuel → (chunksGo k fuel l).flatten = l := by
  intro fuel
  induction fuel with
  | zero =>
    intro l hl
    have h0 : l = [] := List.length_eq_zero.mp (by omega)
    rw [h0]
    rfl
  | succ m ih =>
    intro l hl
    by_cases hnil : l = []
    · rw [hnil]; rfl
    · have hlen : 1 ≤ l.length := by
        cases l with
        | nil => exact absurd rfl hnil
        | cons a tl => simp
      rw [chunksGo, if_neg hnil]
      simp only [List.flatten_cons]
      rw [ih (l.drop k) (by simp [List.length_drop]; omega)]
      exact List.take_append_drop k l

theorem chunksGo_mem_ne_nil (k : Nat) (hk : 1 ≤ k) :
    ∀ (fuel : Nat) (l : List Nat) (c : List Nat), c ∈ chunksGo k fuel l → c ≠ [] := by
  intro fuel
  induction fuel with
  | zero => intro l c hc; simp [chunksGo] at hc
  | succ m ih =>
    intro l c hc
    by_cases hnil : l = []
    · rw [hnil, chunksGo_nil] at hc; simp at hc
    · rw [chunksGo, if_neg hnil] at hc
      rcases List.mem_cons.mp hc with h | h
      · rw [h]
        intro hcon
        rcases List.take_eq_nil_iff.mp hcon with h' | h'
        · omega
        · exact hnil h'
      · exact ih (l.drop k) c h

theorem chunksGo_mem_le (k : Nat) :
    ∀ (fuel : Nat) (l : List Nat) (c : List Nat), c ∈ chunksGo k fuel l → c.length ≤ k := by
  intro fuel
  induction fuel with
  | zero => intro l c hc; simp [chunksGo] at hc
  | succ m ih =>
    intro l c hc
    by_cases hnil : l = []
    · rw [hnil, chunksGo_nil] at hc; simp at hc
    · rw [chunksGo, if_neg hnil] at hc
      rcases List.mem_cons.mp hc with h | h
      · rw [h, List.length_take]; omega
      · exact ih (l.drop k) c h

theorem chunksGo_dropLast_length (k : Nat) (hk : 1 ≤ k) :
    ∀ (fuel : Nat) (l : List Nat), l.length ≤ fuel →
      ∀ c ∈ (chunksGo k fuel l).dropLast, c.length = k := by
  intro fuel
  induction fuel with
  | zero => intro l hl c hc; simp [chunksGo] at hc
  | succ m ih =>
    intro l hl c hc
    by_cases hnil : l = []
    · rw [hnil, chunksGo_nil] at hc; simp at hc
    · rw [chunksGo, if_neg hnil] at hc
      by_cases hrest : chunksGo k m (l.drop k) = []
      · rw [hrest] at hc; simp at hc
      · have hcons : (l.take k :: chunksGo k m (l.drop k)).dropLast =
            l.take k :: (chunksGo k m (l.drop k)).dropLast := by
          rw [List.dropLast_cons_of_ne_nil hrest]
        rw [hcons] at hc
        rcases List.mem_cons.mp hc with h | h
        · have hdrop : l.drop k ≠ [] := by
            intro hcon
            rw [hcon, chunksGo_nil] at hrest
            exact hrest rfl
          have hklen : k < l.length := by
            by_contra hcon
            exact hdrop (List.drop_eq_nil_of_le (by omega))
          rw [h, List.length_take]
          omega
        · exact ih (l.drop k) (by simp [List.length_drop]; omega) c h

/-- C8: `file_reader` splits the file into chunks of exactly
`MAX_BLOB_SIZE - 1` bytes (only the final chunk may be shorter), never
yields an empty chunk, and the concatenation of the chunks is exactly the
file's bytes. -/
theorem C8_file_reader (l : List Nat) :
    (file_reader l).flatten = l ∧
    (file_reader l).all (fun c => !c.isEmpty) = true ∧
    (file_reader l).dropLast.all (fun c => c.length == MAX_BLOB_SIZE - 1) = true ∧
    (file_reader l).all (fun c => decide (c.length ≤ MAX_BLOB_SIZE - 1)) = true := by
  have hk : 1 ≤ MAX_BLOB_SIZE - 1 := by decide
  refine ⟨chunksGo_flatten _ hk l.length l le_rfl, ?_, ?_, ?_⟩
  · rw [List.all_eq_true]
    intro c hc
    have := chunksGo_mem_ne_nil _ hk l.length l c hc
    simpa [List.isEmpty_iff]
  · rw [List.all_eq_true]
    intro c hc
    have := chunksGo_dropLast_length (MAX_BLOB_SIZE - 1) hk l.length l le_rfl c hc
    simpa
  · rw [List.all_eq_true]
    intro c hc
    have := chunksGo_mem_le (MAX_BLOB_SIZE - 1) l.length l c hc
    simpa

theorem parse_entry_as_dict (b : BlobInfo) :
    (match jGetInt (.obj b.as_dict) (pyStr "blob_num") with
     | .error e => .error e
     | .ok num =>
       match jGetInt (.obj b.as_dict) (pyStr "length") with
       | .error e => .error e
       | .ok len =>
         match jGetStr (.obj b.as_dict) (pyStr "iv") with
         | .error e => .error e
         | .ok iv =>
           match jGetOptStr (.obj b.as_dict) (pyStr "blob_hash") with
           | .error e => .error e
           | .ok bh => .ok (BlobInfo.mk num len iv bh)) = Except.ok b := by
  rcases b with ⟨num, len, iv, bh⟩
  cases bh <;>
    simp +decide [jGetInt, jGetStr, jGetOptStr, jGet, jLookup, BlobInfo.as_dict]

theorem jGetInt_length_as_dict (b : BlobInfo) :
    jGetInt (.obj b.as_dict) (pyStr "length") = .ok b.length := by
  simp +decide [jGetInt, jGet, jLookup, BlobInfo.as_dict]

theorem jHasKey_blob_hash_as_dict (b : BlobInfo) :
    jHasKey (.obj b.as_dict) (pyStr "blob_hash") = .ok b.blob_hash.isSome := by
  rcases b with ⟨num, len, iv, bh⟩
  cases bh <;> simp +decide [jHasKey, jLookup, BlobInfo.as_dict]

theorem mapME_parse_entries (l : List BlobInfo) :
    mapME (fun info =>
        match jGetInt info (pyStr "blob_num") with
        | .error e => .error e
        | .ok num =>
          match jGetInt info (pyStr "length") with
          | .error e => .error e
          | .ok len =>
            match jGetStr info (pyStr "iv") with
            | .error e => .error e
            | .ok iv =>
              match jGetOptStr info (pyStr "blob_hash") with
              | .error e => .error e
              | .ok bh => .ok (BlobInfo.mk num len iv bh))
      (l.map (fun b => .obj b.as_dict)) = .ok l := by
  induction l with
  | nil => rfl
  | cons b tl ih =>
    simp only [List.map_cons, mapME, parse_entry_as_dict, ih]

theorem mapME_lengths (l : List BlobInfo) :
    mapME (fun b => jGetInt b (pyStr "length")) (l.map (fun b => .obj b.as_dict)) =
      .ok (l.map (fun b => b.length)) := by
  induction l with
  | nil => rfl
  | cons b tl ih =>
    simp only [List.map_cons, mapME, jGetInt_length_as_dict, ih]


theorem from_blob_sdJson (H : List Nat → List Nat) (x : SdJson)
    (hsh : x.stream_hash ≠ []) :
    from_stream_descriptor_blob H (sdJsonValue x) = ingest_checks_spec H x := by
  have hblobs : jGet (sdJsonValue x) (pyStr "blobs") =
      .ok (.arr (x.blobs.map (fun b => .obj b.as_dict))) := by
    simp +decide [sdJsonValue, format_sd_info, jGet, jLookup]
  have hsn : jGetStr (sdJsonValue x) (pyStr "stream_name") = .ok x.stream_name_hex := by
    simp +decide [sdJsonValue, format_sd_info, jGetStr, jGet, jLookup]
  have hkey : jGetStr (sdJsonValue x) (pyStr "key") = .ok x.key := by
    simp +decide [sdJsonValue, format_sd_info, jGetStr, jGet, jLookup]
  have hsfn : jGetStr (sdJsonValue x) (pyStr "suggested_file_name") =
      .ok x.suggested_file_name_hex := by
    simp +decide [sdJsonValue, format_sd_info, jGetStr, jGet, jLookup]
  have hshl : jGetStr (sdJsonValue x) (pyStr "stream_hash") = .ok x.stream_hash := by
    simp +decide [sdJsonValue, format_sd_info, jGetStr, jGet, jLookup]
  have hcond : (x.stream_hash = []) = False := eq_false hsh
  unfold from_stream_descriptor_blob ingest_checks_spec
  rw [hblobs]
  simp only [asArr]
  cases hlast : x.blobs.getLast? with
  | none =>
    have hlastElem : lastElem (x.blobs.map (fun b => JValue.obj b.as_dict)) =
        .error .indexError := by
      rw [lastElem, getLast?_map, hlast]
      rfl
    simp only [hlastElem]
  | some last =>
    have hlastElem : lastElem (x.blobs.map (fun b => JValue.obj b.as_dict)) =
        .ok (JValue.obj last.as_dict) := by
      rw [lastElem, getLast?_map, hlast]
      rfl
    have hany : ∀ (m : List BlobInfo),
        ((List.map (fun b => b.length) m).any fun l => l == 0) =
          (m.any fun b => b.length == 0) := by
      intro m
      induction m with
      | nil => rfl
      | cons b tl ih => simp only [List.map_cons, List.any_cons, ih]
    simp only [hlastElem, hany x.blobs.dropLast, jGetInt_length_as_dict, dropLast_map, mapME_lengths,
      List.any_map, Function.comp, jHasKey_blob_hash_as_dict, hsn, hkey, hsfn, hshl,
      mapME_parse_entries, descriptor_init, hcond, if_false]

/-- C3: on every SD blob of the descriptor shape, ingest performs exactly
the claimed checks in the claimed order, raising
`InvalidStreamDescriptorError` with the corresponding reason at the first
failure and returning a descriptor exactly when every check passes;
`ingest_checks_spec` spells the sequence out in the spec's words (with the
two off-check behaviours visible: indexing an empty blob list raises
`IndexError`, invalid hex in the names propagates a `binascii` error). -/
theorem C3_ingest_checks (H : List Nat → List Nat) (x : SdJson)
    (hsh : x.stream_hash ≠ []) :
    from_stream_descriptor_blob H (sdJsonValue x) = ingest_checks_spec H x :=
  from_blob_sdJson H x hsh

/-- Witness for C3 at a concrete valid-shape SD blob. -/
theorem C3_ingest_checks_witness :
    (SdJson.mk (pyStr "61") (pyStr "00") (pyStr "61") (pyStr "ff")
        [⟨0, 0, pyStr "aa", none⟩]).stream_hash ≠ [] ∧
    from_stream_descriptor_blob H0
        (sdJsonValue (SdJson.mk (pyStr "61") (pyStr "00") (pyStr "61") (pyStr "ff")
          [⟨0, 0, pyStr "aa", none⟩])) =
      ingest_checks_spec H0 (SdJson.mk (pyStr "61") (pyStr "00") (pyStr "61") (pyStr "ff")
        [⟨0, 0, pyStr "aa", none⟩]) :=
  ⟨by decide, C3_ingest_checks H0 _ (by decide)⟩

/-- C10: an SD blob that decodes to valid JSON whose `blobs` list is empty
makes `_from_stream_descriptor_blob` raise `IndexError` from `blobs[-1]` —
not `InvalidStreamDescriptorError`; nothing checks that the list is
non-empty first. -/
theorem C10_empty_blobs_index_error :
    from_stream_descriptor_blob H0
        (.obj [(pyStr "stream_type", .str (pyStr "lbryfile")),
               (pyStr "stream_name", .str (pyStr "61")),
               (pyStr "key", .str (pyStr "00")),
               (pyStr "suggested_file_name", .str (pyStr "61")),
               (pyStr "stream_hash", .str (pyStr "ff")),
               (pyStr "blobs", .arr [])]) =
      .error .indexError := by decide

theorem sd_info_value_eq (d : Descriptor) :
    sd_info_value d = sdJsonValue ⟨toHexStr d.stream_name, d.key,
      toHexStr d.suggested_file_name, d.stream_hash, d.blobs⟩ := rfl

theorem H0_ne_nil : ∀ l, H0 l ≠ [] := fun l => by simp [H0]

theorem round_trip_blobs (H : List Nat → List Nat) (nm1 keyhex nm2 : PyStr)
    (blobs : List BlobInfo) (t : BlobInfo) (sd : PyStr)
    (hH : ∀ l, H l ≠ [])
    (hnm1 : ∀ b ∈ nm1, b < 256) (hnm2 : ∀ b ∈ nm2, b < 256)
    (hready : HashReady blobs)
    (hlastq : blobs.getLast? = some t) (ht0 : t.length = 0) (hthash : t.blob_hash = none)
    (hdata : ∀ b ∈ blobs.dropLast, ¬(b.length == 0) = true) :
    round_trip_amended H ⟨nm1, keyhex, nm2, blobs,
      stream_hash_spec H nm1 keyhex nm2 blobs, some sd⟩ = true := by
  have hany : (blobs.dropLast.any fun b => b.length == 0) = false :=
    List.any_eq_false.mpr hdata
  simp only [round_trip_amended, sd_info_value_eq]
  rw [from_blob_sdJson H ⟨toHexStr nm1, keyhex, toHexStr nm2,
    stream_hash_spec H nm1 keyhex nm2 blobs, blobs⟩ (toHexStr_ne_nil (hH _))]
  unfold ingest_checks_spec
  simp only [hlastq, ht0, hthash, hany,
    unhexlify_toHexStr nm1 hnm1, unhexlify_toHexStr nm2 hnm2,
    get_stream_hash_eq H ⟨nm1, keyhex, nm2, blobs,
      stream_hash_spec H nm1 keyhex nm2 blobs, none⟩ hready]
  simp

/-- C4 counterexample: for a concrete two-byte file, parsing the canonical
serialization of the descriptor `create_stream` produced does not
reproduce it field-wise — the parsed descriptor's `sd_hash` is unset. -/
theorem C4_round_trip_counterexample :
    (match create_stream H0 E0 (pyStr "f") (pyStr "hi") [7, 7] ivs0 [0] [] with
     | .ok r => round_trip_claim H0 r.1
     | .error _ => true) = false := by decide

/-- C4 (amended): for every descriptor the core produces, parsing the
bytes of its canonical serialization succeeds and returns a descriptor
equal to it on `stream_name`, `key`, `suggested_file_name`, `blobs` and
`stream_hash`; the parsed `sd_hash` is `None` (while the produced
descriptor's is set), since `_from_stream_descriptor_blob` never sets it. -/
theorem C4_round_trip (H : List Nat → List Nat)
    (E : PyStr → PyStr → List Nat → List Nat) (nm : PyStr) (bytes : List Nat)
    (key : PyStr) (ivs : Nat → PyStr) (files : List PyStr) {order : List Nat}
    (hH : ∀ l, H l ≠ [])
    (hE : ∀ k i p, (E k i p).length = 16 * (p.length / 16 + 1))
    (hperm : order.Perm (List.range (file_reader bytes).length))
    (hnm : ∀ b ∈ nm, b < 256) :
    (match create_stream H E nm bytes key ivs order files with
     | .ok r => round_trip_amended H r.1
     | .error _ => true) = true := by
  rw [create_stream_char H E nm bytes key ivs files hperm]
  unfold_let
  split_ifs with hc
  · rfl
  · exact round_trip_blobs H nm (toHexStr key) nm _ _ _ hH hnm hnm
      (hashReady_data_terminator H E key ivs _ _ _ _)
      (List.getLast?_concat _) rfl rfl
      (fun b hb => by
        rw [List.dropLast_concat] at hb
        obtain ⟨i, -, hi⟩ := List.mem_map.mp hb
        rw [← hi]
        exact data_blob_length_ne_zero H E key ivs _ hE i)

/-- Witness for the amended C4 on a two-byte file. -/
theorem C4_round_trip_witness :
    (match create_stream H0 E0 (pyStr "f") (pyStr "hi") [7, 7] ivs0 [0] [] with
     | .ok r => round_trip_amended H0 r.1
     | .error _ => true) = true :=
  @C4_round_trip H0 E0 (pyStr "f") (pyStr "hi") [7, 7] ivs0 [] [0]
    H0_ne_nil E0_length (by decide) (by decide)

theorem blob_dumps_spaced (b : BlobInfo)
    (hiv : ∀ c ∈ b.iv, PlainChar c)
    (hbh : ∀ h, b.blob_hash = some h → ∀ c ∈ h, PlainChar c) :
    pyDumpsF 2 (.obj b.as_dict) = blob_json_with [44, 32] [58, 32] b := by
  rcases b with ⟨num, len, iv, bh⟩
  dsimp only at hiv hbh
  cases bh with
  | none =>
    have e1 : List.insertionSort entryLe
        [(pyStr "blob_num", JValue.int num), (pyStr "length", JValue.int len),
         (pyStr "iv", JValue.str iv)] =
        [(pyStr "blob_num", JValue.int num), (pyStr "iv", JValue.str iv),
         (pyStr "length", JValue.int len)] := by
      simp +decide [List.insertionSort, List.orderedInsert, entryLe, strLeB]
    simp only [pyDumpsF, BlobInfo.as_dict, List.append_nil]
    rw [e1]
    simp only [List.map_cons, List.map_nil, joinSep, pyDumpsF]
    rw [@renderJStr_plain (pyStr "blob_num") (by decide),
      @renderJStr_plain (pyStr "iv") (by decide),
      @renderJStr_plain (pyStr "length") (by decide),
      renderJStr_plain hiv]
    simp [blob_json_with, quoteLit, quoteRaw]
  | some h =>
    have hh : ∀ c ∈ h, PlainChar c := hbh h rfl
    have e1 : List.insertionSort entryLe
        [(pyStr "blob_num", JValue.int num), (pyStr "length", JValue.int len),
         (pyStr "iv", JValue.str iv), (pyStr "blob_hash", JValue.str h)] =
        [(pyStr "blob_hash", JValue.str h), (pyStr "blob_num", JValue.int num),
         (pyStr "iv", JValue.str iv), (pyStr "length", JValue.int len)] := by
      simp +decide [List.insertionSort, List.orderedInsert, entryLe, strLeB]
    simp only [pyDumpsF, BlobInfo.as_dict, List.cons_append, List.nil_append]
    rw [e1]
    simp only [List.map_cons, List.map_nil, joinSep, pyDumpsF]
    rw [@renderJStr_plain (pyStr "blob_hash") (by decide),
      @renderJStr_plain (pyStr "blob_num") (by decide),
      @renderJStr_plain (pyStr "iv") (by decide),
      @renderJStr_plain (pyStr "length") (by decide),
      renderJStr_plain hiv, renderJStr_plain hh]
    simp [blob_json_with, quoteLit, quoteRaw]

theorem as_json_spaced (d : Descriptor)
    (hkey : ∀ c ∈ d.key, PlainChar c)
    (hsh : ∀ c ∈ d.stream_hash, PlainChar c)
    (hblobs : ∀ b ∈ d.blobs, (∀ c ∈ b.iv, PlainChar c) ∧
      ∀ h, b.blob_hash = some h → ∀ c ∈ h, PlainChar c) :
    as_json d = canonical_json_spaced d := by
  rcases d with ⟨sn, key, sfn, blobs, sh, sd⟩
  dsimp only at hkey hsh hblobs
  have e1 : List.insertionSort entryLe
      [(pyStr "stream_type", JValue.str (pyStr "lbryfile")),
       (pyStr "stream_name", JValue.str (toHexStr sn)),
       (pyStr "key", JValue.str key),
       (pyStr "suggested_file_name", JValue.str (toHexStr sfn)),
       (pyStr "stream_hash", JValue.str sh),
       (pyStr "blobs", JValue.arr (blobs.map (fun b => .obj b.as_dict)))] =
      [(pyStr "blobs", JValue.arr (blobs.map (fun b => .obj b.as_dict))),
       (pyStr "key", JValue.str key),
       (pyStr "stream_hash", JValue.str sh),
       (pyStr "stream_name", JValue.str (toHexStr sn)),
       (pyStr "stream_type", JValue.str (pyStr "lbryfile")),
       (pyStr "suggested_file_name", JValue.str (toHexStr sfn))] := by
    simp +decide [List.insertionSort, List.orderedInsert, entryLe, strLeB]
  unfold as_json sd_info_value sdJsonValue format_sd_info
  dsimp only
  simp only [pyDumpsF]
  rw [e1]
  simp only [List.map_cons, List.map_nil, joinSep, pyDumpsF]
  have harr : (blobs.map (fun b => JValue.obj b.as_dict)).map (pyDumpsF 2) =
      blobs.map (blob_json_with [44, 32] [58, 32]) := by
    rw [List.map_map]
    exact List.map_congr_left (fun b hb =>
      blob_dumps_spaced b (hblobs b hb).1 (hblobs b hb).2)
  rw [harr]
  rw [@renderJStr_plain (pyStr "blobs") (by decide),
    @renderJStr_plain (pyStr "key") (by decide),
    @renderJStr_plain (pyStr "stream_hash") (by decide),
    @renderJStr_plain (pyStr "stream_name") (by decide),
    @renderJStr_plain (pyStr "stream_type") (by decide),
    @renderJStr_plain (pyStr "suggested_file_name") (by decide),
    @renderJStr_plain (pyStr "lbryfile") (by decide),
    renderJStr_plain hkey, renderJStr_plain hsh,
    renderJStr_hex sn, renderJStr_hex sfn]
  simp [canonical_json_spaced, canonical_json_with, quoteLit, quoteRaw]

theorem natDecimalGo_mem :
    ∀ (fuel n : Nat) (acc : List Nat), (∀ c ∈ acc, 48 ≤ c ∧ c ≤ 57) →
      ∀ c ∈ natDecimalGo fuel n acc, 48 ≤ c ∧ c ≤ 57 := by
  intro fuel
  induction fuel with
  | zero => intro n acc hacc c hc; exact hacc c hc
  | succ m ih =>
    intro n acc hacc c hc
    simp only [natDecimalGo] at hc
    split at hc
    · rcases List.mem_cons.mp hc with rfl | hc
      · omega
      · exact hacc c hc
    · refine ih (n / 10) _ ?_ c hc
      intro x hx
      rcases List.mem_cons.mp hx with rfl | hx
      · have : n % 10 < 10 := Nat.mod_lt _ (by omega)
        omega
      · exact hacc x hx

theorem intStr_mem (n : Int) : ∀ c ∈ intStr n, c = 45 ∨ (48 ≤ c ∧ c ≤ 57) := by
  intro c hc
  cases n with
  | ofNat m =>
    exact Or.inr (natDecimalGo_mem (m + 1) m [] (by simp) c hc)
  | negSucc m =>
    rcases List.mem_cons.mp hc with rfl | hc
    · exact Or.inl rfl
    · exact Or.inr (natDecimalGo_mem (m + 1 + 1) (m + 1) [] (by simp) c hc)

theorem intStr_all_lt (n : Int) : (intStr n).all (fun c => decide (c < 128)) = true := by
  rw [List.all_eq_true]
  intro c hc
  rcases intStr_mem n c hc with h | h <;> simp <;> omega

theorem quoteRaw_all_lt (s : PyStr) (h : ∀ c ∈ s, PlainChar c) :
    (quoteRaw s).all (fun c => decide (c < 128)) = true := by
  rw [List.all_eq_true]
  intro c hc
  simp only [quoteRaw, List.mem_cons, List.mem_append, List.mem_singleton] at hc
  rcases hc with rfl | hc | rfl | hc
  · decide
  · obtain ⟨-, h2, -, -⟩ := h c hc
    simp
    omega
  · decide
  · simp at hc

theorem all_joinSep (p : Nat → Bool) (sep : List Nat) (l : List (List Nat))
    (hsep : sep.all p = true) (hl : ∀ x ∈ l, x.all p = true) :
    (joinSep sep l).all p = true := by
  induction l with
  | nil => rfl
  | cons x xs ih =>
    cases xs with
    | nil => exact hl x (by simp)
    | cons y ys =>
      simp only [joinSep, List.all_append, Bool.and_eq_true]
      exact ⟨⟨hl x (by simp), hsep⟩, ih (fun z hz => hl z (by simp [hz]))⟩

theorem blob_json_all_lt (b : BlobInfo)
    (hiv : ∀ c ∈ b.iv, PlainChar c)
    (hbh : ∀ h, b.blob_hash = some h → ∀ c ∈ h, PlainChar c) :
    (blob_json_with [44, 32] [58, 32] b).all (fun c => decide (c < 128)) = true := by
  rcases b with ⟨num, len, iv, bh⟩
  dsimp only at hiv hbh
  have hnum := intStr_all_lt num
  have hlen := intStr_all_lt len
  have hivq := quoteRaw_all_lt iv hiv
  cases bh with
  | none =>
    simp +decide [blob_json_with, quoteLit, List.all_append, hnum, hlen, hivq]
  | some h =>
    have hhq := quoteRaw_all_lt h (hbh h rfl)
    simp +decide [blob_json_with, quoteLit, List.all_append, hnum, hlen, hivq, hhq]

theorem canonical_json_all_lt (d : Descriptor)
    (hkey : ∀ c ∈ d.key, PlainChar c)
    (hsh : ∀ c ∈ d.stream_hash, PlainChar c)
    (hblobs : ∀ b ∈ d.blobs, (∀ c ∈ b.iv, PlainChar c) ∧
      ∀ h, b.blob_hash = some h → ∀ c ∈ h, PlainChar c) :
    (canonical_json_spaced d).all (fun c => decide (c < 128)) = true := by
  have hjoin : (joinSep [44, 32] (d.blobs.map (blob_json_with [44, 32] [58, 32]))).all
      (fun c => decide (c < 128)) = true := by
    refine all_joinSep _ _ _ (by decide) ?_
    intro x hx
    obtain ⟨b, hb, hbx⟩ := List.mem_map.mp hx
    rw [← hbx]
    exact blob_json_all_lt b (hblobs b hb).1 (hblobs b hb).2
  have hkeyq := quoteRaw_all_lt d.key hkey
  have hshq := quoteRaw_all_lt d.stream_hash hsh
  have hsnq := quoteRaw_all_lt (toHexStr d.stream_name) (plainChar_toHexStr _)
  have hsfnq := quoteRaw_all_lt (toHexStr d.suggested_file_name) (plainChar_toHexStr _)
  simp +decide [canonical_json_spaced, canonical_json_with, quoteLit, List.all_append,
    hjoin, hkeyq, hshq, hsnq, hsfnq]

/-- C2 counterexample: on a concrete descriptor, `as_json` differs from the
claimed whitespace-free canonical serialization (`canonical_json_nows`,
spelled from the spec's words): the output contains space bytes that are
not part of any field. -/
theorem C2_canonical_json_counterexample :
    as_json ⟨pyStr "a", pyStr "00", pyStr "a", [⟨0, 0, pyStr "aa", none⟩],
        pyStr "ff", none⟩ ≠
      canonical_json_nows ⟨pyStr "a", pyStr "00", pyStr "a",
        [⟨0, 0, pyStr "aa", none⟩], pyStr "ff", none⟩ ∧
    32 ∈ as_json ⟨pyStr "a", pyStr "00", pyStr "a", [⟨0, 0, pyStr "aa", none⟩],
        pyStr "ff", none⟩ ∧
    32 ∉ canonical_json_nows ⟨pyStr "a", pyStr "00", pyStr "a",
        [⟨0, 0, pyStr "aa", none⟩], pyStr "ff", none⟩ := by decide

/-- C2 (amended): `as_json` is the UTF-8 (here: pure-ASCII) JSON object
with string keys sorted at every level and CPython's default separators —
a single space after each item comma and each name colon — whose top level
carries `stream_type` `"lbryfile"`, the names as hex of their UTF-8 bytes,
`key` and `stream_hash` as hex strings, and the ordered blobs list
(`canonical_json_spaced` spells that shape out key by key). -/
theorem C2_canonical_json (d : Descriptor)
    (hkey : ∀ c ∈ d.key, PlainChar c)
    (hsh : ∀ c ∈ d.stream_hash, PlainChar c)
    (hblobs : ∀ b ∈ d.blobs, (∀ c ∈ b.iv, PlainChar c) ∧
      ∀ h, b.blob_hash = some h → ∀ c ∈ h, PlainChar c) :
    as_json d = canonical_json_spaced d ∧
    (as_json d).all (fun c => decide (c < 128)) = true := by
  have he := as_json_spaced d hkey hsh hblobs
  refine ⟨he, ?_⟩
  rw [he]
  exact canonical_json_all_lt d hkey hsh hblobs

/-- Witness for the amended C2 at a concrete descriptor. -/
theorem C2_canonical_json_witness :
    (∀ c ∈ (pyStr "00" : PyStr), PlainChar c) ∧
    (as_json ⟨pyStr "a", pyStr "00", pyStr "a", [⟨0, 0, pyStr "aa", none⟩],
        pyStr "ff", none⟩ =
      canonical_json_spaced ⟨pyStr "a", pyStr "00", pyStr "a",
        [⟨0, 0, pyStr "aa", none⟩], pyStr "ff", none⟩ ∧
    (as_json ⟨pyStr "a", pyStr "00", pyStr "a", [⟨0, 0, pyStr "aa", none⟩],
        pyStr "ff", none⟩).all (fun c => decide (c < 128)) = true) :=
  ⟨by decide, C2_canonical_json ⟨pyStr "a", pyStr "00", pyStr "a",
    [⟨0, 0, pyStr "aa", none⟩], pyStr "ff", none⟩ (by decide) (by decide) (by decide)⟩
